import Mathlib

/-!
Verification of the resume parsing and semantic matching pipeline
(`backend/app/services/resume_parser.py` and
`backend/app/services/vector_service.py`).

Strings are modelled as lists of characters (`Str`); the Python functions
are translated one-to-one into executable Lean functions.  External
machine-learning components are modelled as parameters:

* the sentence-transformer encoder becomes an `Embedder` argument
  (a function from a batch of texts to either a batch of vectors or an
  error, mirroring the `try`/`except` around `encode`);
* cosine similarity over float vectors becomes an abstract
  `sim : Vec → Vec → ℚ` argument (the claims under study are about the
  filtering, sorting and truncation around it, and hold for every
  similarity function);
* `sklearn` KMeans becomes an abstract label-assignment function
  `assign : Nat → List Vec → List Nat`.

Python operations that can raise (list indexing that is not guarded in the
source) are modelled with `Except String`; operations the source guards are
translated as the corresponding pattern match.  The wall-clock field
`parsed_at` and the unused spaCy `doc` argument are outside the model.
Python `list(set(xs))` produces the distinct elements of `xs` in an
unspecified order and is modelled by `List.dedup`.  The `\d` class of the
quantifier regex follows Python `str`-pattern semantics (every Unicode
decimal digit, category Nd, via `isPyDigit`); the remaining character
classes are modelled on their ASCII fragments.
-/

set_option maxRecDepth 1000000

namespace BehavAced

/-- Strings as lists of characters (Python `str`). -/
abbrev Str := List Char

/-- Dense embedding vectors; float entries are modelled as rationals. -/
abbrev Vec := List ℚ

/-- Shorthand for turning a Lean string literal into a `Str`. -/
def lit (s : String) : Str := s.toList

/-- The whitespace characters recognised by Python `str.strip` and `\s`
(ASCII fragment). -/
def isPySpace (c : Char) : Bool :=
  c = ' ' || c = '\t' || c = '\n' || c = '\r' || c = '\x0b' || c = '\x0c'

/-- Python `str.strip()`. -/
def strip (s : Str) : Str :=
  ((s.dropWhile isPySpace).reverse.dropWhile isPySpace).reverse

/-- Python `str.lower()` (ASCII fragment). -/
def lower (s : Str) : Str := s.map Char.toLower

/-- Python `str.upper()` (ASCII fragment). -/
def upper (s : Str) : Str := s.map Char.toUpper

/-- Does `hay` start with `needle`? -/
def startsWith : Str → Str → Bool
  | [], _ => true
  | _ :: _, [] => false
  | n :: ns, h :: hs => n = h && startsWith ns hs

/-- Python `needle in hay` substring containment. -/
def containsStr (hay needle : Str) : Bool :=
  match hay with
  | [] => needle.isEmpty
  | _ :: t => startsWith needle hay || containsStr t needle

/-- Python `str.split(sep)` for a one-character separator: always returns
at least one (possibly empty) part. -/
def splitOnChar (sep : Char) : Str → List Str
  | [] => [[]]
  | c :: cs =>
    match splitOnChar sep cs with
    | [] => [[]]
    | cur :: rest => if c = sep then [] :: cur :: rest else (c :: cur) :: rest

/-- Python `text.split(chr 10)`. -/
def splitLines (s : Str) : List Str := splitOnChar '\n' s

/-- Python `sep.join(parts)`. -/
def joinWith (sep : Str) : List Str → Str
  | [] => []
  | [x] => x
  | x :: xs => x ++ sep ++ joinWith sep xs

/-- Python slice `l[a:b]` for nonnegative bounds. -/
def pySlice (l : List Str) (a b : Nat) : List Str := (l.take b).drop a

/-- Python `min(l)` with a `default` for the empty list. -/
def minOrD (l : List Nat) (d : Nat) : Nat :=
  match l with
  | [] => d
  | x :: xs => xs.foldl Nat.min x

/-- Lexicographic strict comparison of strings by code point, as in
Python string `<`. -/
def strLtB : Str → Str → Bool
  | [], [] => false
  | [], _ :: _ => true
  | _ :: _, [] => false
  | a :: as, b :: bs =>
    if a.toNat < b.toNat then true
    else if b.toNat < a.toNat then false
    else strLtB as bs

/-- Python string `<=`, used through `list.sort`. -/
def strLeB (a b : Str) : Bool := !(strLtB b a)

/-- Run of `\w` characters (`[A-Za-z0-9_]`, ASCII fragment). -/
def isWordChar (c : Char) : Bool := c.isAlphanum || c = '_'

/-- Split a string at its longest prefix of characters satisfying `p`. -/
def runOf (p : Char → Bool) (s : Str) : Str × Str :=
  (s.takeWhile p, s.dropWhile p)

/-- Consume a lowercase literal `kw` case-insensitively, returning the
remaining input (regex `(?i)` literal matching). -/
def ciDrop : Str → Str → Option Str
  | [], s => some s
  | _ :: _, [] => none
  | k :: ks, c :: cs => if c.toLower = k then ciDrop ks cs else none

/-- Consume a lowercase literal `kw` case-insensitively, returning the
consumed original-case characters and the remaining input. -/
def ciTake : Str → Str → Option (Str × Str)
  | [], s => some ([], s)
  | _ :: _, [] => none
  | k :: ks, c :: cs =>
    if c.toLower = k then
      match ciTake ks cs with
      | some (t, r) => some (c :: t, r)
      | none => none
    else none

/-- Leftmost-match search: try a position matcher at every suffix, as
`re.search` scans positions left to right. -/
def searchPos (f : Str → Option α) : Str → Option α
  | [] => f []
  | s@(_ :: t) =>
    match f s with
    | some x => some x
    | none => searchPos f t

/-- The Unicode decimal-digit ranges (general category Nd, Unicode 14.0,
the database CPython consults), as inclusive code-point intervals; the
ASCII digits are the first interval. -/
def ndRanges : List (Nat × Nat) :=
  [(48, 57), (1632, 1641), (1776, 1785), (1984, 1993), (2406, 2415), (2534, 2543),
   (2662, 2671), (2790, 2799), (2918, 2927), (3046, 3055), (3174, 3183), (3302, 3311),
   (3430, 3439), (3558, 3567), (3664, 3673), (3792, 3801), (3872, 3881), (4160, 4169),
   (4240, 4249), (6112, 6121), (6160, 6169), (6470, 6479), (6608, 6617), (6784, 6793),
   (6800, 6809), (6992, 7001), (7088, 7097), (7232, 7241), (7248, 7257), (42528, 42537),
   (43216, 43225), (43264, 43273), (43472, 43481), (43504, 43513), (43600, 43609),
   (44016, 44025), (65296, 65305), (66720, 66729), (68912, 68921), (69734, 69743),
   (69872, 69881), (69942, 69951), (70096, 70105), (70384, 70393), (70736, 70745),
   (70864, 70873), (71248, 71257), (71360, 71369), (71472, 71481), (71904, 71913),
   (72016, 72025), (72784, 72793), (73040, 73049), (73120, 73129), (92768, 92777),
   (92864, 92873), (93008, 93017), (120782, 120831), (123200, 123209), (123632, 123641),
   (125264, 125273), (130032, 130041)]

/-- The regex class `\d` of a Python `str` pattern compiled without
`re.ASCII`: every Unicode decimal digit (general category Nd), not just
the ASCII digits. -/
def isPyDigit (c : Char) : Bool :=
  ndRanges.any (fun r => r.1 ≤ c.toNat && c.toNat ≤ r.2)

/-- Digits of a decimal numeral to a number (Python `int`). -/
def natOfDigits (ds : Str) : Nat :=
  ds.foldl (fun n c => n * 10 + (c.toNat - '0'.toNat)) 0

end BehavAced

namespace BehavAced

/-! ### Data model (the dictionaries built by `ResumeParser`) -/

/-- One bullet line of a role block, with the three heuristic flags
computed by `_parse_role_block`. -/
structure Accomplishment where
  text : Str
  has_quantifier : Bool
  has_tech : Bool
  is_personal_contribution : Bool
deriving DecidableEq, Inhabited

/-- Entry of `quantified_outcomes`: the bullet and the quantifier tokens
found in it. -/
structure QuantifiedOutcome where
  metric : Str
  values : List Str
deriving DecidableEq, Inhabited

/-- The `team_context` dictionary once the team regex matched; the empty
dictionary is modelled as `none`. -/
structure TeamCtx where
  size : Nat
  description : Str
deriving DecidableEq, Inhabited

/-- One parsed role (the dictionary returned by `_parse_role_block`). -/
structure RoleRecord where
  role_title : Str
  company : Str
  location : Str
  start_date : Str
  end_date : Str
  date_range : Str
  accomplishments : List Accomplishment
  quantified_outcomes : List QuantifiedOutcome
  kpis : List Str
  tech_stack : List Str
  team_context : Option TeamCtx
  scope_indicators : List Str
  personal_contributions : List Str
  raw_text : Str
deriving DecidableEq, Inhabited

/-- The headline block (name, title, contact). -/
structure Headline where
  name : Str
  title : Str
  contact : Str
deriving DecidableEq, Inhabited

/-- The four fixed skill categories of `_extract_skills`. -/
structure SkillsByCategory where
  languages : List Str
  frameworks : List Str
  tools : List Str
  concepts : List Str
deriving DecidableEq, Inhabited

/-- A role reference stored in `linked_to_roles`. -/
structure SkillLink where
  role_title : Str
  company : Str
deriving DecidableEq, Inhabited

/-- Result of `_extract_skills`; `linked_to_roles` is an insertion-ordered
dictionary modelled as an association list. -/
structure Skills where
  by_category : SkillsByCategory
  all : List Str
  linked_to_roles : List (Str × List SkillLink)
deriving DecidableEq, Inhabited

/-- Result of `_extract_education`. -/
structure Education where
  degree : Str
  institution : Str
  graduation_date : Str
  gpa : Str
  is_standout : Bool
  standout_reasons : List Str
deriving DecidableEq, Inhabited

/-- The `type` tag of an achievement entry. -/
inductive AchType where
  | award
  | achievement
  | work_recognition
deriving DecidableEq, Inhabited

/-- One achievement entry; `role`/`company` are present only for
`work_recognition` entries. -/
structure Achievement where
  text : Str
  type : AchType
  role : Option Str
  company : Option Str
deriving DecidableEq, Inhabited

/-- Per-role embeddings block produced by `_generate_embeddings`. -/
structure RoleEmbeddingBlock where
  role_title : Str
  company : Str
  embeddings : List Vec
  texts : List Str
deriving DecidableEq, Inhabited

/-- Achievements embeddings block. -/
structure AchEmbeddingBlock where
  embeddings : List Vec
  texts : List Str
deriving DecidableEq, Inhabited

/-- The `embeddings` part of the parse result.  The Python code initialises
the achievements entry with an empty list and replaces it by a dictionary
on success; the empty-list placeholder is modelled as `none`. -/
structure EmbeddingsOut where
  work_experience : List RoleEmbeddingBlock
  achievements : Option AchEmbeddingBlock
deriving DecidableEq, Inhabited

/-- The aggregate returned by `ResumeParser.parse` (without the wall-clock
`parsed_at` field, which is outside the model). -/
structure ParsedResume where
  headline : Headline
  last_role : Option RoleRecord
  work_experience : List RoleRecord
  skills : Skills
  education : Education
  achievements : List Achievement
  embeddings : EmbeddingsOut
deriving DecidableEq, Inhabited

/-- The external sentence-transformer: a batch encoder that may fail
(the source wraps `encode` in `try`/`except`). -/
abbrev Embedder := List Str → Except Unit (List Vec)

end BehavAced

namespace ResumeParser

open BehavAced

/-! ### Section identification (`_identify_sections`) -/

/-- Line indices of the recognised sections; a section that never matched
is absent (`none`).  Later matching lines overwrite earlier ones, exactly
as the Python dictionary assignment does. -/
structure Sections where
  experience : Option Nat
  education : Option Nat
  skills : Option Nat
  projects : Option Nat
  achievements : Option Nat
deriving DecidableEq, Inhabited

def sectionKwExperience : List Str :=
  [lit "EXPERIENCE", lit "WORK EXPERIENCE", lit "EMPLOYMENT", lit "PROFESSIONAL EXPERIENCE"]

def sectionKwEducation : List Str :=
  [lit "EDUCATION", lit "ACADEMIC BACKGROUND"]

def sectionKwSkills : List Str :=
  [lit "SKILLS", lit "TECHNICAL SKILLS", lit "TECHNOLOGIES", lit "COMPETENCIES"]

def sectionKwProjects : List Str :=
  [lit "PROJECTS", lit "PERSONAL PROJECTS", lit "SIDE PROJECTS"]

def sectionKwAchievements : List Str :=
  [lit "ACHIEVEMENTS", lit "AWARDS", lit "HONORS", lit "CERTIFICATIONS", lit "LEADERSHIP"]

/-- Process one line: the first section (in the fixed dictionary order of
the source) whose keyword set matches records the line index, then the
inner loop breaks. -/
def applyLine (st : Sections) (i : Nat) (line : Str) : Sections :=
  let lu := upper (strip line)
  if sectionKwExperience.any (fun k => containsStr lu k) then { st with experience := some i }
  else if sectionKwEducation.any (fun k => containsStr lu k) then { st with education := some i }
  else if sectionKwSkills.any (fun k => containsStr lu k) then { st with skills := some i }
  else if sectionKwProjects.any (fun k => containsStr lu k) then { st with projects := some i }
  else if sectionKwAchievements.any (fun k => containsStr lu k) then { st with achievements := some i }
  else st

def identifyLoop : Nat → List Str → Sections → Sections
  | _, [], st => st
  | i, l :: ls, st => identifyLoop (i + 1) ls (applyLine st i l)

def identifySections (lines : List Str) : Sections :=
  identifyLoop 0 lines ⟨none, none, none, none, none⟩

def optList : Option Nat → List Nat
  | none => []
  | some v => [v]

/-- `sections.values()`; the iteration order is only ever consumed by
`min`, so the fixed field order is adequate. -/
def Sections.values (s : Sections) : List Nat :=
  optList s.experience ++ optList s.education ++ optList s.skills ++
    optList s.projects ++ optList s.achievements

/-- Values of all sections other than `experience`. -/
def Sections.valuesNoExperience (s : Sections) : List Nat :=
  optList s.education ++ optList s.skills ++ optList s.projects ++ optList s.achievements

/-- Values of all sections other than `skills`. -/
def Sections.valuesNoSkills (s : Sections) : List Nat :=
  optList s.experience ++ optList s.education ++ optList s.projects ++ optList s.achievements

/-- Values of all sections other than `education`. -/
def Sections.valuesNoEducation (s : Sections) : List Nat :=
  optList s.experience ++ optList s.skills ++ optList s.projects ++ optList s.achievements

/-- Values of all sections other than `achievements`. -/
def Sections.valuesNoAchievements (s : Sections) : List Nat :=
  optList s.experience ++ optList s.education ++ optList s.skills ++ optList s.projects

/-! ### Headline extraction (`_extract_headline`) -/

def rolePatternWords1 : List Str :=
  [lit "software", lit "engineer", lit "developer", lit "manager", lit "director",
   lit "lead", lit "senior", lit "junior", lit "intern", lit "assistant", lit "analyst"]

def rolePatternWords2 : List Str :=
  [lit "product", lit "project", lit "data", lit "systems"]

/-- Containment of `a`, then at most one non-newline character, then `b`
(the `full.?stack` style subpatterns of the second role pattern). -/
def dotOptContains (hay a b : Str) : Bool :=
  match hay with
  | [] => false
  | _ :: t =>
    (startsWith a hay &&
      (startsWith b (hay.drop a.length) ||
        (match hay.drop a.length with
         | x :: xs => x ≠ '\n' && startsWith b xs
         | [] => false))) ||
    dotOptContains t a b

/-- Does a line match one of the two `role_patterns` regexes
(case-insensitive alternations of literals, plus the `full.?stack`,
`front.?end`, `back.?end` subpatterns)? -/
def hasRoleKeyword (line : Str) : Bool :=
  let ll := lower line
  rolePatternWords1.any (fun k => containsStr ll k) ||
  rolePatternWords2.any (fun k => containsStr ll k) ||
  dotOptContains ll (lit "full") (lit "stack") ||
  dotOptContains ll (lit "front") (lit "end") ||
  dotOptContains ll (lit "back") (lit "end")

/-- The loop `for i in range(min(5, first_section_line)): line = lines[i]`:
the indexing is not guarded in the source, so an out-of-range index is an
error. -/
def collectHeadline (lines : List Str) : List Nat → Except String (List Str)
  | [] => .ok []
  | i :: is =>
    match lines.get? i with
    | none => .error "line index out of range"
    | some l =>
      match collectHeadline lines is with
      | .error e => .error e
      | .ok rest =>
        .ok (if strip l = [] then rest else strip l :: rest)

/-- The title-selection loop over `headline_lines[1:]`: a role-keyword
line wins immediately (`break`), otherwise the first line shorter than 100
characters is kept while scanning continues. -/
def titleLoop : List Str → Str → Str
  | [], t => t
  | l :: ls, t =>
    if hasRoleKeyword l then l
    else if t = [] && l.length < 100 then titleLoop ls l
    else titleLoop ls t

def extractHeadline (lines : List Str) (secs : Sections) : Except String Headline :=
  let firstSection := minOrD secs.values lines.length
  match collectHeadline lines (List.range (min 5 firstSection)) with
  | .error e => .error e
  | .ok hls =>
    let name := match hls with | [] => [] | n :: _ => n
    let title := titleLoop (hls.drop 1) []
    let contact := if hls.length > 2 then joinWith (lit " ") (hls.drop 2) else []
    .ok ⟨name, title, contact⟩

end ResumeParser

namespace ResumeParser

open BehavAced

/-! ### Date range parsing (`_parse_date_range`)

The three patterns are tried in order, each with `re.search` semantics
(leftmost match).  Within a pattern, adjacent greedy pieces are over
disjoint character classes, so the usual backtracking collapses to
maximal-run matching; the one fixed-width piece (`four digits`) takes
exactly four digit characters. -/

/-- Exactly `n` digit characters. -/
def takeExactDigits : Nat → Str → Option (Str × Str)
  | 0, s => some ([], s)
  | _ + 1, [] => none
  | n + 1, c :: cs =>
    if c.isDigit then
      match takeExactDigits n cs with
      | some (d, r) => some (c :: d, r)
      | none => none
    else none

/-- One `word+ ws+ dddd` group (`\w+\s+\d` then three more digits), as in
the month-year alternatives.  Returns the matched characters and the rest. -/
def matchMonthYearAt (s : Str) : Option (Str × Str) :=
  let (w, r1) := runOf isWordChar s
  if w = [] then none
  else
    let (ws, r2) := runOf isPySpace r1
    if ws = [] then none
    else
      match takeExactDigits 4 r2 with
      | none => none
      | some (ds, r3) => some (w ++ ws ++ ds, r3)

/-- The `ws* dash ws*` separator between the two groups. -/
def matchDashSep (s : Str) : Option Str :=
  let (_, r1) := runOf isPySpace s
  match r1 with
  | d :: r2 =>
    if d = '-' || d = '–' then some ((runOf isPySpace r2).2) else none
  | [] => none

/-- Pattern 1: month-year, dash, month-year. -/
def matchP1At (s : Str) : Option (Str × Str) :=
  match matchMonthYearAt s with
  | none => none
  | some (g1, r) =>
    match matchDashSep r with
    | none => none
    | some r2 =>
      match matchMonthYearAt r2 with
      | none => none
      | some (g2, _) => some (g1, g2)

/-- Pattern 2: four digits, dash, four digits. -/
def matchP2At (s : Str) : Option (Str × Str) :=
  match takeExactDigits 4 s with
  | none => none
  | some (g1, r) =>
    match matchDashSep r with
    | none => none
    | some r2 =>
      match takeExactDigits 4 r2 with
      | none => none
      | some (g2, _) => some (g1, g2)

/-- Pattern 3: month-year, dash, `Present` or `Current`
(case-insensitive, alternation order as written). -/
def matchP3At (s : Str) : Option (Str × Str) :=
  match matchMonthYearAt s with
  | none => none
  | some (g1, r) =>
    match matchDashSep r with
    | none => none
    | some r2 =>
      match ciTake (lit "present") r2 with
      | some (g2, _) => some (g1, g2)
      | none =>
        match ciTake (lit "current") r2 with
        | some (g2, _) => some (g1, g2)
        | none => none

/-- `_parse_date_range`: ordered first-match-wins cascade over the three
patterns; both captured groups are stripped; no match yields two empty
strings. -/
def parseDateRange (dateStr : Str) : Str × Str :=
  if dateStr = [] then ([], [])
  else
    match searchPos matchP1At dateStr with
    | some (a, b) => (strip a, strip b)
    | none =>
      match searchPos matchP2At dateStr with
      | some (a, b) => (strip a, strip b)
      | none =>
        match searchPos matchP3At dateStr with
        | some (a, b) => (strip a, strip b)
        | none => ([], [])

/-! ### Quantifier detection (the `re.findall` over bullets)

The alternation `digits%`, `dollar digits [KMB]?`, `digits+`,
`digits [KMB]?` is tried in order at each position; `re.findall` scans
left to right, skipping one character when no alternative matches and
resuming after the end of each match.  The pattern is a `str` pattern
without `re.ASCII`, so its `\d` matches every Unicode decimal digit
(`isPyDigit`). -/

/-- Try the quantifier alternation at the current position, returning the
matched token and the rest of the input. -/
def quantAt : Str → Option (Str × Str)
  | [] => none
  | c :: cs =>
    if c = '$' then
      match runOf isPyDigit cs with
      | ([], _) => none
      | (ds, r) =>
        match r with
        | k :: r' =>
          if k = 'K' || k = 'M' || k = 'B' then some ('$' :: ds ++ [k], r')
          else some ('$' :: ds, r)
        | [] => some ('$' :: ds, [])
    else if isPyDigit c then
      let (ds, r) := runOf isPyDigit (c :: cs)
      match r with
      | '%' :: r' => some (ds ++ ['%'], r')
      | '+' :: r' => some (ds ++ ['+'], r')
      | k :: r' =>
        if k = 'K' || k = 'M' || k = 'B' then some (ds ++ [k], r')
        else some (ds, r)
      | [] => some (ds, [])
    else none

/-- The findall scan, with fuel bounding the number of steps. -/
def quantScan : Nat → Str → List Str
  | 0, _ => []
  | _ + 1, [] => []
  | fuel + 1, s@(_ :: t) =>
    match quantAt s with
    | some (tok, rest) => tok :: quantScan fuel rest
    | none => quantScan fuel t

/-- All quantifier tokens of a bullet. -/
def findQuantifiers (s : Str) : List Str := quantScan (s.length + 1) s

/-! ### Team-size regex (`team|led|collaborated with|worked with` then
whitespace then digits, case-insensitive `re.search`) -/

def teamKws : List Str :=
  [lit "team", lit "led", lit "collaborated with", lit "worked with"]

/-- Try the team regex at the current position. -/
def teamAt (s : Str) : Option Nat :=
  teamKws.findSome? fun kw =>
    match ciDrop kw s with
    | none => none
    | some r =>
      match runOf isPySpace r with
      | ([], _) => none
      | (_, r1) =>
        match runOf Char.isDigit r1 with
        | ([], _) => none
        | (ds, _) => some (natOfDigits ds)

def teamSearch (s : Str) : Option Nat := searchPos teamAt s

/-! ### Bullet processing inside `_parse_role_block` -/

def techStackKeywords : List Str :=
  [lit "python", lit "javascript", lit "java", lit "react", lit "node", lit "sql",
   lit "postgresql", lit "mongodb", lit "docker", lit "kubernetes", lit "aws",
   lit "azure", lit "gcp", lit "git", lit "terraform", lit "ansible", lit "flask",
   lit "django", lit "express", lit "spring", lit "angular", lit "vue",
   lit "typescript", lit "scikit-learn", lit "tensorflow", lit "pytorch",
   lit "pandas", lit "numpy"]

def contributionIndicators : List Str :=
  [lit "led", lit "designed", lit "implemented", lit "created", lit "built",
   lit "developed", lit "initiated"]

def scopeWords : List Str :=
  [lit "launched", lit "deployed", lit "production", lit "users",
   lit "customers", lit "stakeholders"]

/-- Mutable loop state of the bullet loop in `_parse_role_block`. -/
structure BulletState where
  accomplishments : List Accomplishment
  tech_stack_used : List Str
  quantified_outcomes : List QuantifiedOutcome
  team_context : Option TeamCtx
  personal_contributions : List Str
deriving DecidableEq, Inhabited

/-- Is a (stripped) line a bullet line? -/
def isBulletLine : Str → Bool
  | [] => false
  | c :: _ => c = '•' || c = '-' || c = '*'

/-- Strip the leading bullet marker and following whitespace
(`re.sub` of one marker character and trailing `\s*`). -/
def stripBulletMarker (s : Str) : Str :=
  match s with
  | [] => []
  | c :: cs => if c = '•' || c = '-' || c = '*' then cs.dropWhile isPySpace else s

/-- One iteration of the bullet loop. -/
def processBullet (st : BulletState) (line : Str) : BulletState :=
  let l := strip line
  if l = [] then st
  else if isBulletLine l then
    let bullet := stripBulletMarker l
    let quants := findQuantifiers bullet
    let bulletLower := lower bullet
    let foundTech := techStackKeywords.filter (fun k => containsStr bulletLower k)
    let st1 :=
      if quants.isEmpty then st
      else { st with quantified_outcomes :=
               st.quantified_outcomes ++ [⟨bullet, quants⟩] }
    let st2 :=
      if foundTech.isEmpty then st1
      else { st1 with tech_stack_used := st1.tech_stack_used ++ foundTech }
    let st3 :=
      match teamSearch bullet with
      | some n => { st2 with team_context := some ⟨n, bullet⟩ }
      | none => st2
    let isContribution := contributionIndicators.any (fun k => containsStr bulletLower k)
    let st4 :=
      if isContribution then
        { st3 with personal_contributions := st3.personal_contributions ++ [bullet] }
      else st3
    { st4 with accomplishments :=
        st4.accomplishments ++
          [⟨bullet, !quants.isEmpty, !foundTech.isEmpty, isContribution⟩] }
  else st

/-! ### Role blocks (`_split_into_roles`, `_parse_role_block`) -/

def roleHeaderKws : List Str :=
  [lit "intern", lit "engineer", lit "developer", lit "manager",
   lit "assistant", lit "analyst", lit "lead"]

/-- A stripped line opens a new role block when it contains a pipe and one
of the role keywords (case-insensitive). -/
def isRoleHeaderLine (l : Str) : Bool :=
  l.contains '|' && roleHeaderKws.any (fun k => containsStr (lower l) k)

/-- The line loop of `_split_into_roles`: skip blank lines, start a new
block at each header line, otherwise accumulate into the current block. -/
def splitLoop : List Str → List Str → List Str → List Str
  | [], blocks, cur =>
    if cur = [] then blocks else blocks ++ [joinWith (lit "\n") cur]
  | l :: ls, blocks, cur =>
    let l := strip l
    if l = [] then splitLoop ls blocks cur
    else if isRoleHeaderLine l then
      if cur = [] then splitLoop ls blocks [l]
      else splitLoop ls (blocks ++ [joinWith (lit "\n") cur]) [l]
    else splitLoop ls blocks (cur ++ [l])

def splitIntoRoles (text : Str) : List Str :=
  splitLoop (splitLines text) [] []

/-- `_parse_role_block`: header fields from the pipe-separated header
line, then the bullet loop, then the derived lists.  (The empty-lines
guard of the source is the `[]` branch; `list(set(tech))` is modelled as
`dedup`.) -/
def parseRoleBlock (block : Str) : Option RoleRecord :=
  match splitLines block with
  | [] => none
  | header :: rest =>
    let headerParts := (splitOnChar '|' header).map strip
    let roleTitle := match headerParts with | [] => [] | x :: _ => x
    let company := headerParts.getD 1 []
    let location := headerParts.getD 2 []
    let dateRange := headerParts.getD 3 []
    let (startDate, endDate) := parseDateRange dateRange
    let st := rest.foldl processBullet ⟨[], [], [], none, []⟩
    let kpis := (st.accomplishments.filter (·.has_quantifier)).map (·.text)
    let scope := (st.accomplishments.filter
      (fun a => scopeWords.any (fun w => containsStr (lower a.text) w))).map (·.text)
    some
      { role_title := roleTitle
        company := company
        location := location
        start_date := startDate
        end_date := endDate
        date_range := dateRange
        accomplishments := st.accomplishments
        quantified_outcomes := st.quantified_outcomes
        kpis := kpis
        tech_stack := st.tech_stack_used.dedup
        team_context := st.team_context
        scope_indicators := scope
        personal_contributions := st.personal_contributions
        raw_text := block }

/-! ### Work experience assembly (`_extract_work_experience`) -/

/-- The experience region: from the experience header line (or line 0 when
no header was found) up to the smallest line index of any other section
(or the end of the document). -/
def expRegionText (lines : List Str) (secs : Sections) : Str :=
  let expStart := secs.experience.getD 0
  let expEnd := minOrD secs.valuesNoExperience lines.length
  joinWith (lit "\n") (pySlice lines expStart expEnd)

/-- Sort key relation for `sort(key=end_date, reverse=True)`: a stable
descending sort by the end-date string. -/
def endDateDesc (a b : RoleRecord) : Prop := strLeB b.end_date a.end_date = true

instance : DecidableRel endDateDesc :=
  fun a b => inferInstanceAs (Decidable (strLeB b.end_date a.end_date = true))

def extractWorkExperience (lines : List Str) (secs : Sections) : List RoleRecord :=
  let blocks := splitIntoRoles (expRegionText lines secs)
  let experiences := blocks.filterMap parseRoleBlock
  List.insertionSort endDateDesc experiences

end ResumeParser

namespace ResumeParser

open BehavAced

/-! ### Skills (`_extract_skills`)

The per-category regex is the escaped keyword, optional whitespace and
colon, then a lazy group up to the end of the line.  The matcher below
implements the backtracking order of the regex engine explicitly: the
first whitespace run greedily from longest to shortest, the optional colon
preferring to match, the second whitespace run greedily, and the lazy
group stopping at the first newline (it must be nonempty). -/

/-- Run of non-newline characters (what `.+` can cover). -/
def nonNlRun (s : Str) : Str := s.takeWhile (fun c => c != '\n')

/-- Second `ws*` (greedy) followed by the lazy group. -/
def tailTrySecondWs (r2 : Str) : Option Str :=
  ((List.range ((runOf isPySpace r2).1.length + 1)).reverse).findSome? fun j =>
    let g := nonNlRun (r2.drop j)
    if g = [] then none else some g

/-- Optional colon (preferring to match) followed by the rest of the
tail. -/
def tailColon (r1 : Str) : Option Str :=
  match r1 with
  | ':' :: r2 =>
    (match tailTrySecondWs r2 with
     | some g => some g
     | none => tailTrySecondWs r1)
  | _ => tailTrySecondWs r1

/-- The whole tail after the keyword: first `ws*` greedy, then colon and
second run. -/
def tailAfterKw (s : Str) : Option Str :=
  ((List.range ((runOf isPySpace s).1.length + 1)).reverse).findSome? fun i =>
    tailColon (s.drop i)

/-- `re.search` for the keyword-and-tail pattern: leftmost occurrence of
the keyword (case-insensitive) whose tail also matches. -/
def searchKwTail (kwLower : Str) : Str → Option Str
  | [] => none
  | s@(_ :: t) =>
    match ciDrop kwLower s with
    | some rest =>
      (match tailAfterKw rest with
       | some g => some g
       | none => searchKwTail kwLower t)
    | none => searchKwTail kwLower t

/-- `re.split` on commas and semicolons. -/
def splitOnPred (p : Char → Bool) : Str → List Str
  | [] => [[]]
  | c :: cs =>
    match splitOnPred p cs with
    | [] => [[]]
    | cur :: rest => if p c then [] :: cur :: rest else (c :: cur) :: rest

def catKwsLanguages : List Str := [lit "Languages:", lit "Programming Languages:"]

def catKwsFrameworks : List Str := [lit "Frameworks:", lit "Frameworks/Tools:"]

def catKwsTools : List Str := [lit "Tools:", lit "Technologies:"]

def catKwsConcepts : List Str := [lit "Concepts:", lit "Knowledge:"]

/-- One category: every keyword whose lowercase form occurs in the skills
text contributes the comma/semicolon-split, stripped items of its matched
group (the source does not break out of the keyword loop). -/
def extractCategory (skillsText : Str) (kws : List Str) : List Str :=
  kws.foldl (fun acc kw =>
    if containsStr (lower skillsText) (lower kw) then
      match searchKwTail (lower kw) skillsText with
      | some grp =>
        acc ++ (splitOnPred (fun c => c = ',' || c = ';') grp).map strip
      | none => acc
    else acc) []

/-- Insertion-ordered dictionary update (`d[k] = v`). -/
def assocSet : List (Str × List SkillLink) → Str → List SkillLink → List (Str × List SkillLink)
  | [], k, v => [(k, v)]
  | (k', v') :: rest, k, v =>
    if k' = k then (k', v) :: rest else (k', v') :: assocSet rest k v

def extractSkills (lines : List Str) (secs : Sections) (wexp : List RoleRecord) : Skills :=
  let cats : SkillsByCategory :=
    match secs.skills with
    | none => ⟨[], [], [], []⟩
    | some sStart =>
      let sEnd := minOrD (secs.valuesNoSkills.filter (fun v => sStart < v)) lines.length
      let sText := joinWith (lit "\n") (pySlice lines sStart sEnd)
      ⟨extractCategory sText catKwsLanguages,
       extractCategory sText catKwsFrameworks,
       extractCategory sText catKwsTools,
       extractCategory sText catKwsConcepts⟩
  let allSkills := cats.languages ++ cats.frameworks ++ cats.tools ++ cats.concepts
  let linked := allSkills.foldl (fun m skill =>
    let sl := lower skill
    let linkedRoles := wexp.filterMap (fun ro =>
      let roleText := lower (ro.role_title ++ ' ' :: ro.raw_text)
      if containsStr roleText sl ||
         techStackKeywords.any (fun tech => containsStr tech sl && containsStr roleText tech)
      then some (⟨ro.role_title, ro.company⟩ : SkillLink)
      else none)
    if linkedRoles = [] then m else assocSet m skill linkedRoles) []
  ⟨cats, allSkills.dedup, linked⟩

/-! ### Education (`_extract_education`) -/

def degKws : List Str :=
  [lit "bachelor", lit "master", lit "phd", lit "doctorate", lit "associate"]

def inOfKws : List Str := [lit "in", lit "of"]

/-- The `in`/`of`, whitespace, non-pipe-body tail of the first degree
pattern; returns the matched characters. -/
def degreeTail (r1 : Str) : Option Str :=
  inOfKws.findSome? fun w =>
    match ciTake w r1 with
    | none => none
    | some (wTxt, r2) =>
      let wsMax := (runOf isPySpace r2).1.length
      (((List.range wsMax).map (· + 1)).reverse).findSome? fun n =>
        let body := (r2.drop n).takeWhile (fun c => c != '|')
        if body = [] then none
        else some (wTxt ++ r2.take n ++ body)

/-- First degree pattern at a position: degree keyword, lazy non-newline
gap, then the tail.  The whole match (`group(0)`) is returned. -/
def degree1At (s : Str) : Option Str :=
  degKws.findSome? fun kw =>
    match ciTake kw s with
    | none => none
    | some (kwTxt, rest) =>
      let maxGap := (nonNlRun rest).length
      (List.range (maxGap + 1)).findSome? fun gap =>
        match degreeTail (rest.drop gap) with
        | some t => some (kwTxt ++ rest.take gap ++ t)
        | none => none

/-- Second degree pattern at a position: a letters-and-dots run,
whitespace, `in`, whitespace, non-pipe body (all case-insensitive). -/
def degree2At (s : Str) : Option Str :=
  let (run, r1) := runOf (fun c => c.isAlpha || c = '.') s
  if run = [] then none
  else
    let (ws1, r2) := runOf isPySpace r1
    if ws1 = [] then none
    else
      match ciTake (lit "in") r2 with
      | none => none
      | some (inTxt, r3) =>
        let wsMax := (runOf isPySpace r3).1.length
        (((List.range wsMax).map (· + 1)).reverse).findSome? fun n =>
          let body := (r3.drop n).takeWhile (fun c => c != '|')
          if body = [] then none
          else some (run ++ ws1 ++ inTxt ++ r3.take n ++ body)

/-- The GPA pattern at a position: `gpa`, a run of colons/whitespace, then
`digits.digits`; the two digit groups are returned. -/
def gpaAt (s : Str) : Option (Str × Str) :=
  match ciDrop (lit "gpa") s with
  | none => none
  | some r =>
    let (sep, r1) := runOf (fun c => c = ':' || isPySpace c) r
    if sep = [] then none
    else
      let (d1, r2) := runOf Char.isDigit r1
      if d1 = [] then none
      else
        match r2 with
        | '.' :: r3 =>
          let (d2, _) := runOf Char.isDigit r3
          if d2 = [] then none else some (d1, d2)
        | _ => none

/-- The institution pattern at a position: a pipe, greedy whitespace, then
a nonempty non-pipe group (with the backtracking fallback when only
whitespace is available). -/
def institutionAt : Str → Option Str
  | '|' :: rest =>
    let t := rest.takeWhile (fun c => c != '|')
    if t = [] then none
    else if t.any (fun c => !(isPySpace c)) then some (t.dropWhile isPySpace)
    else
      match t.getLast? with
      | some c => some [c]
      | none => none
  | _ => none

def honorKws : List Str :=
  [lit "honors", lit "summa", lit "magna", lit "cum laude",
   lit "dean\x27s list", lit "scholarship"]

/-- Keep at least one digit while removing leading zeros. -/
def stripLeadingZeros (ds : Str) : Str :=
  match ds.dropWhile (fun c => c = '0') with
  | [] => ['0']
  | r => r

/-- Keep at least one digit while removing trailing zeros. -/
def stripTrailingZeros (ds : Str) : Str :=
  match (ds.reverse.dropWhile (fun c => c = '0')).reverse with
  | [] => ['0']
  | r => r

/-- `str(float(numeral))` for the short decimal GPA numerals captured by
the pattern (CPython shortest round-trip representation: leading and
trailing zeros disappear, one digit is kept on each side). -/
def gpaDisplay (d1 d2 : Str) : Str :=
  stripLeadingZeros d1 ++ '.' :: stripTrailingZeros d2

def extractEducation (lines : List Str) (secs : Sections) : Education :=
  match secs.education with
  | none => ⟨[], [], [], [], false, []⟩
  | some eduStart =>
    let eduEnd := minOrD (secs.valuesNoEducation.filter (fun v => eduStart < v)) lines.length
    let eduText := joinWith (lit "\n") (pySlice lines eduStart eduEnd)
    let degree :=
      match searchPos degree1At eduText with
      | some g => g
      | none =>
        match searchPos degree2At eduText with
        | some g => g
        | none => []
    let institution :=
      match searchPos institutionAt eduText with
      | some g => strip g
      | none => []
    let (gpa, standGpa, reasonsGpa) :=
      match searchPos gpaAt eduText with
      | some (d1, d2) =>
        let disp := gpaDisplay d1 d2
        -- float comparison `gpa >= 3.5` done exactly on the decimal numeral
        if 7 * 10 ^ d2.length ≤ 2 * natOfDigits (d1 ++ d2) then
          (disp, true, [lit "High GPA: " ++ disp])
        else (disp, false, [])
      | none => ([], false, [])
    let hasHonors := honorKws.any (fun k => containsStr (lower eduText) k)
    ⟨degree, institution, [], gpa, standGpa || hasHonors,
      reasonsGpa ++ (if hasHonors then [lit "Academic honors/awards"] else [])⟩

/-! ### Achievements (`_extract_achievements`) -/

def awardWords : List Str := [lit "award", lit "prize", lit "honor"]

def recognitionWords : List Str :=
  [lit "award", lit "prize", lit "recognition", lit "outstanding", lit "excellence"]

def extractAchievements (lines : List Str) (secs : Sections) (wexp : List RoleRecord) :
    List Achievement :=
  let fromSection :=
    match secs.achievements with
    | none => []
    | some aStart =>
      let aEnd := minOrD (secs.valuesNoAchievements.filter (fun v => aStart < v)) lines.length
      let aLines := splitLines (joinWith (lit "\n") (pySlice lines aStart aEnd))
      (aLines.drop 1).foldl (fun acc l =>
        let ls := strip l
        if ls = [] then acc
        else if isBulletLine ls then
          let b := stripBulletMarker ls
          acc ++ [⟨b,
            (if awardWords.any (fun w => containsStr (lower b) w) then .award
             else .achievement), none, none⟩]
        else acc) []
  wexp.foldl (fun acc ro =>
    ro.accomplishments.foldl (fun acc2 a =>
      if recognitionWords.any (fun w => containsStr (lower a.text) w) then
        acc2 ++ [⟨a.text, .work_recognition, some ro.role_title, some ro.company⟩]
      else acc2) acc) fromSection

/-! ### Embeddings (`_generate_embeddings`) -/

def generateEmbeddings (w : Embedder) (wexp : List RoleRecord) (achs : List Achievement) :
    EmbeddingsOut :=
  let blocks := wexp.foldl (fun acc ro =>
    let texts := ro.accomplishments.map (fun a =>
      ro.role_title ++ lit " at " ++ ro.company ++ lit ": " ++ a.text)
    if texts = [] then acc
    else
      match w texts with
      | .ok vecs => acc ++ [⟨ro.role_title, ro.company, vecs, texts⟩]
      | .error _ => acc) []
  let achBlock :=
    if achs = [] then none
    else
      match w (achs.map (·.text)) with
      | .ok vecs => some ⟨vecs, achs.map (·.text)⟩
      | .error _ => none
  ⟨blocks, achBlock⟩

/-! ### The parse entry point -/

/-- `ResumeParser.parse`.  The only unguarded indexing of the pipeline is
inside `_extract_headline`; everything after the headline is a total
computation on the already-split lines. -/
def parse (w : Embedder) (resumeText : Str) : Except String ParsedResume :=
  let lines := splitLines resumeText
  let secs := identifySections lines
  match extractHeadline lines secs with
  | .error e => .error e
  | .ok headline =>
    let wexp := extractWorkExperience lines secs
    let skills := extractSkills lines secs wexp
    let education := extractEducation lines secs
    let achievements := extractAchievements lines secs wexp
    let embeddings := generateEmbeddings w wexp achievements
    .ok ⟨headline, wexp.head?, wexp, skills, education, achievements, embeddings⟩

end ResumeParser

namespace VectorService

open BehavAced

/-! ### Vector search service (`vector_service.py`)

The embedding model and cosine similarity are abstract parameters
(`enc`, `sim`); the KMeans fit is an abstract label assignment
(`assign`).  `texts[idx]` lookups are unguarded in the source, so a
missing text index is an error. -/

/-- One similarity-search result. -/
structure MatchResult where
  role_title : Str
  company : Str
  accomplishment : Str
  similarity : ℚ
  match_type : Str
deriving DecidableEq, Inhabited

/-- Descending order on similarity, the `sort(key=similarity,
reverse=True)` relation. -/
def simDesc (a b : MatchResult) : Prop := b.similarity ≤ a.similarity

instance : DecidableRel simDesc :=
  fun a b => inferInstanceAs (Decidable (b.similarity ≤ a.similarity))

instance : IsTotal MatchResult simDesc :=
  ⟨fun a b => le_total b.similarity a.similarity⟩

instance : IsTrans MatchResult simDesc :=
  ⟨fun _ _ _ hab hbc => le_trans hbc hab⟩

/-- `np.argsort(similarities)[::-1]`: indices sorted ascending by value
and reversed.  (NumPy's default sort is not stable; any tie order
satisfies the properties under study.) -/
def argsortDesc (sims : List ℚ) : List Nat :=
  (List.insertionSort (fun i j => sims.getD i 0 ≤ sims.getD j 0)
    (List.range sims.length)).reverse

def workExperienceTag : Str := lit "work_experience"

/-- The loop over the role-local top indices: threshold filter, then the
`texts[idx]` lookup (which raises when out of range). -/
def roleCandGo (b : RoleEmbeddingBlock) (sims : List ℚ) (t : ℚ) :
    List Nat → Except String (List MatchResult)
  | [] => .ok []
  | i :: is =>
    let s := sims.getD i 0
    if t ≤ s then
      match b.texts.get? i with
      | none => .error "text index out of range"
      | some txt =>
        match roleCandGo b sims t is with
        | .error e => .error e
        | .ok rest =>
          .ok (⟨b.role_title, b.company, txt, s, workExperienceTag⟩ :: rest)
    else roleCandGo b sims t is

/-- Candidates of one role block: cosine similarities against the query,
role-local top-`k` indices, threshold filter. -/
def roleCandidates (qv : Vec) (sim : Vec → Vec → ℚ) (k : Nat) (t : ℚ)
    (b : RoleEmbeddingBlock) : Except String (List MatchResult) :=
  let sims := b.embeddings.map (fun e => sim qv e)
  roleCandGo b sims t ((argsortDesc sims).take k)

/-- Accumulate candidates across all role blocks. -/
def collectCands (qv : Vec) (sim : Vec → Vec → ℚ) (k : Nat) (t : ℚ) :
    List RoleEmbeddingBlock → Except String (List MatchResult)
  | [] => .ok []
  | b :: bs =>
    match roleCandidates qv sim k t b with
    | .error e => .error e
    | .ok l =>
      match collectCands qv sim k t bs with
      | .error e => .error e
      | .ok ls => .ok (l ++ ls)

/-- `find_similar_experiences`: empty input short-circuits to `[]`;
otherwise candidates are merged, globally sorted descending by similarity
and truncated to `top_k`. -/
def findSimilarExperiences (enc : Str → Vec) (sim : Vec → Vec → ℚ) (query : Str)
    (blocks : List RoleEmbeddingBlock) (topK : Nat) (threshold : ℚ) :
    Except String (List MatchResult) :=
  if blocks = [] then .ok []
  else
    match collectCands (enc query) sim topK threshold blocks with
    | .error e => .error e
    | .ok cands => .ok ((List.insertionSort simDesc cands).take topK)

/-- One member of a theme cluster. -/
structure ClusterMember where
  role_title : Str
  company : Str
  text : Str
deriving DecidableEq, Inhabited

/-- The per-role enumeration collecting `(embedding, metadata)` pairs;
`texts[i]` is unguarded. -/
def roleEmbMetaGo (b : RoleEmbeddingBlock) : Nat → List Vec →
    Except String (List (Vec × ClusterMember))
  | _, [] => .ok []
  | i, v :: vs =>
    match b.texts.get? i with
    | none => .error "text index out of range"
    | some txt =>
      match roleEmbMetaGo b (i + 1) vs with
      | .error e => .error e
      | .ok rest => .ok ((v, ⟨b.role_title, b.company, txt⟩) :: rest)

/-- All `(embedding, metadata)` pairs across role blocks, in order. -/
def collectEmb : List RoleEmbeddingBlock → Except String (List (Vec × ClusterMember))
  | [] => .ok []
  | b :: bs =>
    match roleEmbMetaGo b 0 b.embeddings with
    | .error e => .error e
    | .ok l =>
      match collectEmb bs with
      | .error e => .error e
      | .ok ls => .ok (l ++ ls)

/-- Append a member to its cluster, creating the cluster at the end on
first sight (Python dictionary insertion order). -/
def addToCluster : List (Nat × List ClusterMember) → Nat → ClusterMember →
    List (Nat × List ClusterMember)
  | [], k, m => [(k, [m])]
  | (k', ms) :: rest, k, m =>
    if k' = k then (k', ms ++ [m]) :: rest else (k', ms) :: addToCluster rest k m

/-- Group labelled members into clusters. -/
def groupPairs (lps : List (Nat × ClusterMember)) : List (Nat × List ClusterMember) :=
  lps.foldl (fun cs lm => addToCluster cs lm.1 lm.2) []

/-- The loop `for idx, label in enumerate(cluster_labels)` pairing each
label with `all_metadata[idx]` (unguarded indexing). -/
def pairLabels (metas : List ClusterMember) : Nat → List Nat →
    Except String (List (Nat × ClusterMember))
  | _, [] => .ok []
  | i, l :: ls =>
    match metas.get? i with
    | none => .error "metadata index out of range"
    | some m =>
      match pairLabels metas (i + 1) ls with
      | .error e => .error e
      | .ok rest => .ok ((l, m) :: rest)

/-- `cluster_experiences_by_theme`.  The Python string keys are
`cluster_` followed by the label; the label itself is kept as the key.
`assign` abstracts `KMeans(n_clusters, random_state=42, n_init=10)
.fit_predict`. -/
def clusterExperiencesByTheme (assign : Nat → List Vec → List Nat)
    (blocks : List RoleEmbeddingBlock) (nClustersArg : Option Nat) :
    Except String (List (Nat × List ClusterMember)) :=
  if blocks = [] then .ok []
  else
    match collectEmb blocks with
    | .error e => .error e
    | .ok pairs =>
      let embs := pairs.map Prod.fst
      let metas := pairs.map Prod.snd
      if embs = [] then .ok []
      else
        let n := match nClustersArg with
          | some n => n
          | none => min 5 (embs.length / 2)
        if n < 2 then .ok [(0, metas)]
        else
          match pairLabels metas 0 (assign n embs) with
          | .error e => .error e
          | .ok lps => .ok (groupPairs lps)

/-- `match_skills_to_experiences`: templated query, hard-coded `top_k=5`. -/
def matchSkillsToExperiences (enc : Str → Vec) (sim : Vec → Vec → ℚ) (skill : Str)
    (blocks : List RoleEmbeddingBlock) (threshold : ℚ) :
    Except String (List MatchResult) :=
  findSimilarExperiences enc sim (lit "used " ++ skill ++ lit " to") blocks 5 threshold

/-- `find_story_candidates`: enriched query and fixed lower threshold. -/
def findStoryCandidates (enc : Str → Vec) (sim : Vec → Vec → ℚ) (theme : Str)
    (blocks : List RoleEmbeddingBlock) (topK : Nat) :
    Except String (List MatchResult) :=
  findSimilarExperiences enc sim
    (lit "experience about " ++ theme ++ lit " with measurable impact") blocks topK
    ((3 : ℚ) / 10)

end VectorService

namespace BehavAced

open ResumeParser VectorService

/-! ### Concrete fixtures used by the witnesses and counterexamples -/

/-- A trivial embedder: every text maps to the empty vector.  The
structural claims do not depend on the embedding values. -/
def trivialEmbedder : Embedder := fun ts => .ok (ts.map (fun _ => ([] : Vec)))

/-- The parse result, defaulting on error (the parser is in fact total,
which the safety claim establishes). -/
def parseOk (w : Embedder) (s : Str) : ParsedResume :=
  (parse w s).toOption.getD default

/-- Scenario A of the specification. -/
def scenarioAText : Str :=
  lit "John Doe\nSoftware Engineer\n\nEXPERIENCE\nSenior Engineer | Acme Corp | SF | Jan 2020 - Present\n• Led team of 5 engineers, increased throughput by 40%\n"

/-- A resume whose experience region contains no pipe-delimited line. -/
def noPipeText : Str := lit "EXPERIENCE\nWorked at a shop for ten years\n"

/-- Two dated roles, one ending `Current`, one ending `Sep 2016`. -/
def mixedDatesText : Str :=
  lit "EXPERIENCE\nEngineer | AcmeA | NYC | Jan 2020 - Current\n• Shipped things\nAnalyst | AcmeB | NYC | Mar 2015 - Sep 2016\n• Did analysis\n"

/-- A skills section with a duplicated skill across the category list. -/
def dupSkillsText : Str := lit "SKILLS\nLanguages: Python, Java, Python\n"

/-- A minimal resume with one quantified accomplishment. -/
def quantDemoText : Str := lit "Engineer | Acme\n• won 5 games\n"

/-- A minimal resume whose only numeral is the fullwidth digit five
(U+FF15), a Unicode decimal digit that is not an ASCII digit. -/
def unicodeDigitText : Str := lit "Engineer | Acme\n• won ５ games\n"

/-- Constant-one similarity used by the vector-service witnesses. -/
def simOne : Vec → Vec → ℚ := fun _ _ => 1

/-- Constant empty query encoder. -/
def encZero : Str → Vec := fun _ => []

/-- One embedding block with a single accomplishment. -/
def oneBlock : RoleEmbeddingBlock := ⟨lit "r", lit "c", [[1]], [lit "t"]⟩

/-- The match result produced from `oneBlock` under `simOne`. -/
def oneResult : MatchResult := ⟨lit "r", lit "c", lit "t", 1, workExperienceTag⟩

/-- Four embeddings in one block, for the clustering witness. -/
def fourBlock : RoleEmbeddingBlock :=
  ⟨lit "r", lit "c", [[1], [2], [3], [4]], [lit "a", lit "b", lit "c", lit "d"]⟩

/-- The `(embedding, metadata)` pairs collected from `fourBlock`. -/
def fourPairs : List (Vec × ClusterMember) :=
  [([1], ⟨lit "r", lit "c", lit "a"⟩), ([2], ⟨lit "r", lit "c", lit "b"⟩),
   ([3], ⟨lit "r", lit "c", lit "c"⟩), ([4], ⟨lit "r", lit "c", lit "d"⟩)]

/-- A fixed two-cluster assignment for the clustering witness. -/
def assignAlt : Nat → List Vec → List Nat := fun _ _ => [0, 1, 0, 1]

/-- A block that carries no accomplishment embeddings at all. -/
def emptyEmbBlock : RoleEmbeddingBlock := ⟨lit "r", lit "c", [], []⟩

/-- A degenerate assignment (never reached on zero embeddings). -/
def assignNone : Nat → List Vec → List Nat := fun _ _ => []

end BehavAced

/-! ## Theorems -/

namespace ResumeParser

open BehavAced

theorem mem_optList {v : Nat} {o : Option Nat} : v ∈ optList o ↔ o = some v := by
  cases o <;> simp [optList, eq_comm]

theorem applyLine_values (st : Sections) (i : Nat) (l : Str) :
    ∀ v ∈ (applyLine st i l).values, v = i ∨ v ∈ st.values := by
  intro v hv
  simp only [applyLine] at hv
  split_ifs at hv <;>
    simp only [Sections.values, List.mem_append, mem_optList, Option.some.injEq] at hv ⊢ <;>
    tauto

theorem identifyLoop_values_bound :
    ∀ (ls : List Str) (i : Nat) (st : Sections) (n : Nat),
      (∀ v ∈ st.values, v < n) → i + ls.length ≤ n →
      ∀ v ∈ (identifyLoop i ls st).values, v < n := by
  intro ls
  induction ls with
  | nil => intro i st n hst _ v hv; exact hst v hv
  | cons l ls ih =>
    intro i st n hst hlen v hv
    refine ih (i + 1) (applyLine st i l) n ?_ (by simp at hlen; omega) v hv
    intro u hu
    rcases applyLine_values st i l u hu with h | h
    · subst h; simp at hlen; omega
    · exact hst u h

theorem identifySections_values_bound (lines : List Str) :
    ∀ v ∈ (identifySections lines).values, v < lines.length := by
  refine identifyLoop_values_bound lines 0 _ lines.length ?_ (by omega)
  intro v hv
  simp [Sections.values, optList] at hv

theorem collectHeadline_ok (lines : List Str) :
    ∀ idxs : List Nat, (∀ i ∈ idxs, i < lines.length) →
      ∃ r, collectHeadline lines idxs = .ok r := by
  intro idxs
  induction idxs with
  | nil => intro _; exact ⟨[], rfl⟩
  | cons i is ih =>
    intro h
    obtain ⟨r, hr⟩ := ih (fun j hj => h j (by simp [hj]))
    have hi : i < lines.length := h i (by simp)
    have hg : lines.get? i = some (lines.get ⟨i, hi⟩) := List.get?_eq_get hi
    refine ⟨if strip (lines.get ⟨i, hi⟩) = [] then r else strip (lines.get ⟨i, hi⟩) :: r, ?_⟩
    simp only [collectHeadline, hg, hr]

theorem foldl_min_mem : ∀ (xs : List Nat) (x : Nat),
    xs.foldl Nat.min x = x ∨ xs.foldl Nat.min x ∈ xs := by
  intro xs
  induction xs with
  | nil => intro x; exact .inl rfl
  | cons y ys ih =>
    intro x
    rcases ih (Nat.min x y) with h | h
    · have hm : x.min y = x ∨ x.min y = y := by
        have : min x y = x ∨ min x y = y := by omega
        exact this
      rcases hm with hm | hm
      · left; rw [List.foldl_cons, h, hm]
      · right; rw [List.foldl_cons, h, hm]; simp
    · right; simp [List.foldl_cons, h]

theorem minOrD_cases (l : List Nat) (d : Nat) : minOrD l d = d ∨ minOrD l d ∈ l := by
  cases l with
  | nil => exact .inl rfl
  | cons x xs =>
    right
    rcases foldl_min_mem xs x with h | h
    · simp only [minOrD]; rw [h]; simp
    · simp only [minOrD]; exact List.mem_cons_of_mem _ h

theorem except_ok_of_isSome {α : Type} {e : Except String α}
    (h : e.toOption.isSome = true) : ∃ r, e = .ok r := by
  cases e with
  | error e => simp [Except.toOption] at h
  | ok r => exact ⟨r, rfl⟩

theorem extractHeadline_ok (lines : List Str) (secs : Sections)
    (hb : ∀ v ∈ secs.values, v < lines.length) :
    ∃ h, extractHeadline lines secs = .ok h := by
  have hfs : minOrD secs.values lines.length ≤ lines.length := by
    rcases minOrD_cases secs.values lines.length with h | h
    · omega
    · exact le_of_lt (hb _ h)
  obtain ⟨r, hr⟩ := collectHeadline_ok lines
    (List.range (min 5 (minOrD secs.values lines.length)))
    (by
      intro i hi
      rw [List.mem_range] at hi
      omega)
  refine except_ok_of_isSome ?_
  simp only [extractHeadline, hr]
  rfl

theorem identifySections_bound (lines : List Str) :
    ∀ v ∈ (identifySections lines).values, v < lines.length :=
  identifySections_values_bound lines

theorem parse_ok_work (w : Embedder) (s : Str) (r : ParsedResume)
    (hp : parse w s = .ok r) :
    r.work_experience =
      extractWorkExperience (splitLines s) (identifySections (splitLines s)) := by
  simp only [parse] at hp
  split at hp
  · exact Except.noConfusion hp
  · cases hp; rfl

theorem parse_ok_skills (w : Embedder) (s : Str) (r : ParsedResume)
    (hp : parse w s = .ok r) :
    r.skills =
      extractSkills (splitLines s) (identifySections (splitLines s))
        (extractWorkExperience (splitLines s) (identifySections (splitLines s))) := by
  simp only [parse] at hp
  split at hp
  · exact Except.noConfusion hp
  · cases hp; rfl

/-- C4: for every embedder and every input string, `parse` returns a
`ParsedResume` record (which by its type carries all six fields: headline,
work_experience, skills, education, achievements, embeddings) and never
fails: the only unguarded Python indexing of the structural pipeline, the
headline loop, always stays within the line list because every recorded
section index is a valid line index. -/
theorem claim_c4 (w : Embedder) (s : Str) : ∃ r, parse w s = .ok r := by
  obtain ⟨h, hh⟩ := extractHeadline_ok (splitLines s) (identifySections (splitLines s))
    (identifySections_bound (splitLines s))
  refine except_ok_of_isSome ?_
  simp only [parse, hh]
  rfl

theorem splitLoop_length_le :
    ∀ (ls : List Str), (∀ l ∈ ls, isRoleHeaderLine (strip l) = false) →
      ∀ (blocks cur : List Str), (splitLoop ls blocks cur).length ≤ blocks.length + 1 := by
  intro ls
  induction ls with
  | nil =>
    intro _ blocks cur
    simp only [splitLoop]
    split <;> simp
  | cons l ls ih =>
    intro h blocks cur
    have hl : isRoleHeaderLine (strip l) = false := h l (by simp)
    have hrest : ∀ x ∈ ls, isRoleHeaderLine (strip x) = false :=
      fun x hx => h x (by simp [hx])
    simp only [splitLoop]
    split
    · exact ih hrest blocks cur
    · rw [if_neg (by simp [hl])]
      exact ih hrest blocks (cur ++ [strip l])

/-- C1 (amended): when no line of the experience region is a
pipe-and-role-keyword header line, the Role Block Splitter produces at
most one (catch-all) block, so a successful parse has at most one
work-experience record.  (The original claim that `work_experience` is
empty fails: the splitter accumulates non-header lines into a block even
before any header, see the counterexample.) -/
theorem claim_c1_amended (w : Embedder) (s : Str) (r : ParsedResume)
    (hnh : ∀ l ∈ splitLines (expRegionText (splitLines s) (identifySections (splitLines s))),
      isRoleHeaderLine (strip l) = false)
    (hp : parse w s = .ok r) :
    r.work_experience.length ≤ 1 := by
  rw [parse_ok_work w s r hp]
  unfold extractWorkExperience
  rw [List.length_insertionSort]
  have h1 := List.length_filterMap_le parseRoleBlock
    (splitIntoRoles (expRegionText (splitLines s) (identifySections (splitLines s))))
  have h2 := splitLoop_length_le
    (splitLines (expRegionText (splitLines s) (identifySections (splitLines s)))) hnh [] []
  simp only [List.length_nil] at h2
  unfold splitIntoRoles at h1 ⊢
  omega

theorem quantAt_none_of_no_digit (s : Str) (h : s.any isPyDigit = false) :
    quantAt s = none := by
  cases s with
  | nil => rfl
  | cons c cs =>
    rw [List.any_cons, Bool.or_eq_false_iff] at h
    obtain ⟨hc, hcs⟩ := h
    have htw : cs.takeWhile isPyDigit = [] := by
      cases cs with
      | nil => rfl
      | cons d ds =>
        rw [List.any_cons, Bool.or_eq_false_iff] at hcs
        simp [List.takeWhile_cons, hcs.1]
    simp only [quantAt]
    split_ifs with h1 h2
    · rw [runOf, htw]
    · rw [h2] at hc; exact Bool.noConfusion hc
    · rfl

theorem quantScan_digit : ∀ (fuel : Nat) (s : Str),
    quantScan fuel s ≠ [] → s.any isPyDigit = true := by
  intro fuel
  induction fuel with
  | zero => intro s h; simp [quantScan] at h
  | succ n ih =>
    intro s h
    cases s with
    | nil => simp [quantScan] at h
    | cons c t =>
      by_cases hd : (c :: t).any isPyDigit = true
      · exact hd
      · exfalso
        have hno : (c :: t).any isPyDigit = false := by
          simpa using hd
        have hq := quantAt_none_of_no_digit _ hno
        rw [List.any_cons, Bool.or_eq_false_iff] at hno
        simp only [quantScan, hq] at h
        have := ih t h
        rw [hno.2] at this
        exact Bool.noConfusion this

theorem processBullet_accs (st : BulletState) (line : Str) :
    (processBullet st line).accomplishments = st.accomplishments ∨
    ∃ b : Str, (processBullet st line).accomplishments =
      st.accomplishments ++
        [⟨b, !(findQuantifiers b).isEmpty,
            !(techStackKeywords.filter (fun k => containsStr (lower b) k)).isEmpty,
            contributionIndicators.any (fun k => containsStr (lower b) k)⟩] := by
  by_cases h1 : strip line = []
  · exact .inl (by simp [processBullet, h1])
  · by_cases h2 : isBulletLine (strip line)
    · refine .inr ⟨stripBulletMarker (strip line), ?_⟩
      simp only [processBullet, if_neg h1, if_pos h2]
      repeat' split
      all_goals rfl
    · exact .inl (by simp [processBullet, if_neg h1, h2])

theorem foldBullets_quant :
    ∀ (ls : List Str) (st : BulletState),
      (∀ a ∈ st.accomplishments, a.has_quantifier = true → a.text.any isPyDigit = true) →
      ∀ a ∈ (ls.foldl processBullet st).accomplishments,
        a.has_quantifier = true → a.text.any isPyDigit = true := by
  intro ls
  induction ls with
  | nil => intro st h; simpa using h
  | cons l ls ih =>
    intro st h
    rw [List.foldl_cons]
    refine ih (processBullet st l) ?_
    intro a ha hq
    rcases processBullet_accs st l with he | ⟨b, he⟩
    · rw [he] at ha; exact h a ha hq
    · rw [he] at ha
      rcases List.mem_append.mp ha with hx | hx
      · exact h a hx hq
      · rw [List.mem_singleton] at hx
        subst hx
        simp only at hq
        have hne : findQuantifiers b ≠ [] := by
          intro hc
          rw [hc] at hq
          exact Bool.noConfusion hq
        exact quantScan_digit (b.length + 1) b hne

theorem parseRoleBlock_quant (block : Str) (ro : RoleRecord)
    (h : parseRoleBlock block = some ro) :
    ∀ a ∈ ro.accomplishments, a.has_quantifier = true → a.text.any isPyDigit = true := by
  simp only [parseRoleBlock] at h
  split at h
  · exact Option.noConfusion h
  · cases h
    exact foldBullets_quant _ _ (by simp)

theorem extractWorkExperience_mem (lines : List Str) (secs : Sections) (ro : RoleRecord)
    (h : ro ∈ extractWorkExperience lines secs) :
    ∃ b, parseRoleBlock b = some ro := by
  unfold extractWorkExperience at h
  rw [(List.perm_insertionSort endDateDesc _).mem_iff] at h
  obtain ⟨b, _, hb⟩ := List.mem_filterMap.mp h
  exact ⟨b, hb⟩

/-- C7 (amended): in every successfully parsed resume, every
accomplishment whose `has_quantifier` flag is set contains at least one
Unicode decimal digit (category Nd, the class Python `\d` matches) in its
text: every quantifier-regex alternative requires one, so a nonempty
`findall` result forces such a digit in the bullet.  (The original
ASCII-digit claim fails: `\d` also matches non-ASCII digits such as the
fullwidth five, see the counterexample.) -/
theorem claim_c7_amended (w : Embedder) (s : Str) (r : ParsedResume) (ro : RoleRecord)
    (a : Accomplishment) (hp : parse w s = .ok r) (hro : ro ∈ r.work_experience)
    (ha : a ∈ ro.accomplishments) (hq : a.has_quantifier = true) :
    a.text.any isPyDigit = true := by
  rw [parse_ok_work w s r hp] at hro
  obtain ⟨b, hb⟩ := extractWorkExperience_mem _ _ ro hro
  exact parseRoleBlock_quant b ro hb a ha hq

/-- C9: in every successfully parsed resume, `skills.all` is duplicate
free: it is built by Python `list(set(all_skills))`, modelled as `dedup`,
whatever the category lists contain. -/
theorem claim_c9 (w : Embedder) (s : Str) (r : ParsedResume)
    (hp : parse w s = .ok r) : r.skills.all.Nodup := by
  rw [parse_ok_skills w s r hp]
  unfold extractSkills
  exact List.nodup_dedup _

end ResumeParser

namespace VectorService

open BehavAced

theorem roleCandGo_ok_mem (b : RoleEmbeddingBlock) (sims : List ℚ) (t : ℚ) :
    ∀ (idxs : List Nat) (l : List MatchResult),
      roleCandGo b sims t idxs = .ok l → ∀ r ∈ l, t ≤ r.similarity := by
  intro idxs
  induction idxs with
  | nil =>
    intro l h r hr
    simp only [roleCandGo] at h
    cases h
    simp at hr
  | cons i is ih =>
    intro l h r hr
    simp only [roleCandGo] at h
    split_ifs at h with ht
    · split at h
      · exact Except.noConfusion h
      · split at h
        · exact Except.noConfusion h
        · rename_i rest hrec
          cases h
          rcases List.mem_cons.mp hr with he | hm
          · subst he; exact ht
          · exact ih rest hrec r hm
    · exact ih l h r hr

theorem collectCands_ok_mem (qv : Vec) (sim : Vec → Vec → ℚ) (k : Nat) (t : ℚ) :
    ∀ (bs : List RoleEmbeddingBlock) (l : List MatchResult),
      collectCands qv sim k t bs = .ok l → ∀ r ∈ l, t ≤ r.similarity := by
  intro bs
  induction bs with
  | nil =>
    intro l h r hr
    simp only [collectCands] at h
    cases h
    simp at hr
  | cons b bs ih =>
    intro l h r hr
    simp only [collectCands] at h
    cases h1 : roleCandidates qv sim k t b with
    | error e => simp only [h1] at h; exact Except.noConfusion h
    | ok l1 =>
      cases h2 : collectCands qv sim k t bs with
      | error e => simp only [h1, h2] at h; exact Except.noConfusion h
      | ok l2 =>
        simp only [h1, h2] at h
        cases h
        rcases List.mem_append.mp hr with hm | hm
        · exact roleCandGo_ok_mem b _ t _ l1 h1 r hm
        · exact ih l2 h2 r hm

theorem findSimilar_spec (enc : Str → Vec) (sim : Vec → Vec → ℚ) (q : Str)
    (blocks : List RoleEmbeddingBlock) (k : Nat) (t : ℚ) (rs : List MatchResult)
    (h : findSimilarExperiences enc sim q blocks k t = .ok rs) :
    (∀ r ∈ rs, t ≤ r.similarity) ∧ List.Sorted simDesc rs ∧ rs.length ≤ k := by
  simp only [findSimilarExperiences] at h
  split_ifs at h with hb
  · cases h
    exact ⟨by simp, by simp, by simp⟩
  · split at h
    · exact Except.noConfusion h
    · rename_i cands hcn
      cases h
      refine ⟨?_, ?_, ?_⟩
      · intro r hr
        have hr2 : r ∈ List.insertionSort simDesc cands :=
          (List.take_sublist _ _).subset hr
        rw [(List.perm_insertionSort simDesc cands).mem_iff] at hr2
        exact collectCands_ok_mem (enc q) sim k t blocks cands hcn r hr2
      · exact List.Pairwise.sublist (List.take_sublist _ _)
          (List.sorted_insertionSort simDesc cands)
      · rw [List.length_take]
        omega

/-- C5: every result list that `find_similar_experiences` returns contains
only matches at or above the supplied threshold, is sorted non-increasing
by similarity, and has length at most `top_k` — for every query, every
similarity function, every embeddings input and every nonnegative
`top_k`. -/
theorem claim_c5 (enc : Str → Vec) (sim : Vec → Vec → ℚ) (q : Str)
    (blocks : List RoleEmbeddingBlock) (k : Nat) (t : ℚ) (rs : List MatchResult)
    (h : findSimilarExperiences enc sim q blocks k t = .ok rs) :
    (∀ r ∈ rs, t ≤ r.similarity) ∧ List.Sorted simDesc rs ∧ rs.length ≤ k :=
  findSimilar_spec enc sim q blocks k t rs h

/-- C10: the skill-match entry point delegates to similarity search with
the templated query and a hard-coded `top_k` of 5, so it never returns
more than 5 results. -/
theorem claim_c10 (enc : Str → Vec) (sim : Vec → Vec → ℚ) (skill : Str)
    (blocks : List RoleEmbeddingBlock) (t : ℚ) :
    matchSkillsToExperiences enc sim skill blocks t =
      findSimilarExperiences enc sim (lit "used " ++ skill ++ lit " to") blocks 5 t ∧
    ∀ rs, matchSkillsToExperiences enc sim skill blocks t = .ok rs → rs.length ≤ 5 :=
  ⟨rfl, fun rs h => (findSimilar_spec enc sim _ blocks 5 t rs h).2.2⟩

theorem addToCluster_keys (cs : List (Nat × List ClusterMember)) (k : Nat) (m : ClusterMember) :
    (addToCluster cs k m).map Prod.fst =
      if k ∈ cs.map Prod.fst then cs.map Prod.fst else cs.map Prod.fst ++ [k] := by
  induction cs with
  | nil => simp [addToCluster]
  | cons p rest ih =>
    obtain ⟨k', ms⟩ := p
    by_cases he : k' = k
    · subst he
      rw [if_pos (show k' ∈ List.map Prod.fst ((k', ms) :: rest) by simp)]
      simp [addToCluster, List.map_cons]
    · simp only [addToCluster, if_neg he, List.map_cons]
      rw [ih]
      by_cases hm : k ∈ rest.map Prod.fst
      · rw [if_pos hm, if_pos (List.mem_cons_of_mem _ hm)]
      · rw [if_neg hm, if_neg (by
          simp only [List.mem_cons]
          rintro (h | h)
          · exact he h.symm
          · exact hm h)]
        rfl

theorem groupFold_keys_mem :
    ∀ (lps : List (Nat × ClusterMember)) (cs : List (Nat × List ClusterMember)) (j : Nat),
      j ∈ (lps.foldl (fun cs lm => addToCluster cs lm.1 lm.2) cs).map Prod.fst ↔
        j ∈ cs.map Prod.fst ∨ j ∈ lps.map Prod.fst := by
  intro lps
  induction lps with
  | nil => intro cs j; simp
  | cons p ps ih =>
    intro cs j
    rw [List.foldl_cons, ih (addToCluster cs p.1 p.2) j, addToCluster_keys]
    by_cases hm : p.1 ∈ cs.map Prod.fst
    · rw [if_pos hm]
      simp only [List.map_cons, List.mem_cons]
      constructor
      · rintro (h | h)
        · exact .inl h
        · exact .inr (.inr h)
      · rintro (h | h | h)
        · exact .inl h
        · exact .inl (h ▸ hm)
        · exact .inr h
    · rw [if_neg hm]
      simp only [List.map_cons, List.mem_cons, List.mem_append, List.mem_singleton]
      tauto

theorem groupFold_keys_nodup :
    ∀ (lps : List (Nat × ClusterMember)) (cs : List (Nat × List ClusterMember)),
      (cs.map Prod.fst).Nodup →
      ((lps.foldl (fun cs lm => addToCluster cs lm.1 lm.2) cs).map Prod.fst).Nodup := by
  intro lps
  induction lps with
  | nil => intro cs h; simpa using h
  | cons p ps ih =>
    intro cs h
    rw [List.foldl_cons]
    refine ih _ ?_
    rw [addToCluster_keys]
    split_ifs with hm
    · exact h
    · have hp : (p.1 :: (cs.map Prod.fst ++ [])).Nodup := by
        rw [List.append_nil]
        exact List.nodup_cons.mpr ⟨hm, h⟩
      exact (List.perm_middle).symm.nodup hp

theorem addToCluster_join (cs : List (Nat × List ClusterMember)) (k : Nat) (m : ClusterMember) :
    ((addToCluster cs k m).map Prod.snd).flatten.Perm (m :: (cs.map Prod.snd).flatten) := by
  induction cs with
  | nil => simp [addToCluster]
  | cons p rest ih =>
    obtain ⟨k', ms⟩ := p
    simp only [addToCluster]
    split_ifs with he
    · simp only [List.map_cons, List.flatten_cons, List.append_assoc, List.singleton_append]
      exact List.perm_middle
    · simp only [List.map_cons, List.flatten_cons]
      refine (List.Perm.append_left ms ih).trans ?_
      exact List.perm_middle

theorem groupFold_join :
    ∀ (lps : List (Nat × ClusterMember)) (cs : List (Nat × List ClusterMember)),
      ((lps.foldl (fun cs lm => addToCluster cs lm.1 lm.2) cs).map Prod.snd).flatten.Perm
        ((cs.map Prod.snd).flatten ++ lps.map Prod.snd) := by
  intro lps
  induction lps with
  | nil => intro cs; simp
  | cons p ps ih =>
    intro cs
    simp only [List.map_cons, List.foldl_cons]
    refine (ih (addToCluster cs p.1 p.2)).trans ?_
    refine (List.Perm.append_right (ps.map Prod.snd) (addToCluster_join cs p.1 p.2)).trans ?_
    simpa using
      (@List.perm_middle _ p.2 ((cs.map Prod.snd).flatten) (ps.map Prod.snd)).symm

theorem pairLabels_eq_zip (metas : List ClusterMember) :
    ∀ (labels : List Nat) (i : Nat), i + labels.length ≤ metas.length →
      pairLabels metas i labels = .ok (labels.zip (metas.drop i)) := by
  intro labels
  induction labels with
  | nil => intro i _; simp [pairLabels]
  | cons l ls ih =>
    intro i hlen
    have hi : i < metas.length := by simp at hlen; omega
    have hget : metas.get? i = some metas[i] := by
      rw [List.get?_eq_getElem?]
      exact List.getElem?_eq_getElem hi
    have hih := ih (i + 1) (by simp at hlen ⊢; omega)
    simp only [pairLabels, hget, hih]
    rw [List.drop_eq_getElem_cons hi, List.zip_cons_cons]

theorem keys_length_eq (keys : List Nat) (n : Nat) (hnd : keys.Nodup)
    (hmem : ∀ j, j ∈ keys ↔ j < n) : keys.length = n := by
  have h1 : keys.toFinset = Finset.range n := by
    ext j
    rw [List.mem_toFinset, Finset.mem_range]
    exact hmem j
  have h2 := List.toFinset_card_of_nodup hnd
  rw [h1, Finset.card_range] at h2
  omega

theorem groupPairs_keys_nodup (lps : List (Nat × ClusterMember)) :
    ((groupPairs lps).map Prod.fst).Nodup :=
  groupFold_keys_nodup lps [] (by simp)

theorem groupPairs_keys_mem (lps : List (Nat × ClusterMember)) (j : Nat) :
    j ∈ (groupPairs lps).map Prod.fst ↔ j ∈ lps.map Prod.fst := by
  have h := groupFold_keys_mem lps [] j
  simpa [groupPairs] using h

theorem groupPairs_flatten (lps : List (Nat × ClusterMember)) :
    ((groupPairs lps).map Prod.snd).flatten.Perm (lps.map Prod.snd) := by
  have h := groupFold_join lps []
  simpa [groupPairs] using h

/-- C6 (amended): with the adaptive cluster count (no explicit count), a
non-empty input with `1 ≤ N < 4` total accomplishment embeddings yields
the single trivial cluster holding every member; with `N ≥ 4`, and a
KMeans assignment producing one label below `min 5 (N / 2)` per point and
using every such label (sklearn KMeans leaves no cluster empty), the
result has exactly `min 5 (N / 2)` clusters whose members are, as a
multiset, exactly the collected accomplishments — each appears in exactly
one cluster.  (The original claim fails for a non-empty input with zero
embeddings, where the code returns the empty mapping rather than one
trivial cluster; see the counterexample.) -/
theorem claim_c6_amended (assign : Nat → List Vec → List Nat)
    (blocks : List RoleEmbeddingBlock) (pairs : List (Vec × ClusterMember))
    (hc : collectEmb blocks = .ok pairs) :
    (1 ≤ pairs.length → pairs.length < 4 →
      clusterExperiencesByTheme assign blocks none = .ok [(0, pairs.map Prod.snd)]) ∧
    (4 ≤ pairs.length →
      (assign (min 5 (pairs.length / 2)) (pairs.map Prod.fst)).length = pairs.length →
      (∀ l ∈ assign (min 5 (pairs.length / 2)) (pairs.map Prod.fst),
        l < min 5 (pairs.length / 2)) →
      (∀ j, j < min 5 (pairs.length / 2) →
        j ∈ assign (min 5 (pairs.length / 2)) (pairs.map Prod.fst)) →
      ∃ cl, clusterExperiencesByTheme assign blocks none = .ok cl ∧
        cl.length = min 5 (pairs.length / 2) ∧
        ((cl.map Prod.snd).flatten).Perm (pairs.map Prod.snd)) := by
  have hbne : pairs ≠ [] → blocks ≠ [] := by
    intro hp hb
    subst hb
    simp only [collectEmb] at hc
    injection hc with h
    exact hp h.symm
  constructor
  · intro h1 h4
    have hpne : pairs ≠ [] := by intro h; rw [h] at h1; simp at h1
    have hb := hbne hpne
    have hemb : ¬(pairs.map Prod.fst = []) := by simpa using hpne
    simp only [clusterExperiencesByTheme, if_neg hb, hc, List.length_map]
    rw [if_neg hemb, if_pos (show min 5 (pairs.length / 2) < 2 by omega)]
  · intro h4 hlen hbound hsurj
    have hpne : pairs ≠ [] := by intro h; rw [h] at h4; simp at h4
    have hb := hbne hpne
    have hemb : ¬(pairs.map Prod.fst = []) := by simpa using hpne
    have hmetas : (pairs.map Prod.snd).length = pairs.length := List.length_map _ _
    have hzip : pairLabels (pairs.map Prod.snd) 0
        (assign (min 5 (pairs.length / 2)) (pairs.map Prod.fst)) =
        .ok ((assign (min 5 (pairs.length / 2)) (pairs.map Prod.fst)).zip
          (pairs.map Prod.snd)) := by
      have h := pairLabels_eq_zip (pairs.map Prod.snd)
        (assign (min 5 (pairs.length / 2)) (pairs.map Prod.fst)) 0 (by omega)
      simpa using h
    have hfst : ((assign (min 5 (pairs.length / 2)) (pairs.map Prod.fst)).zip
        (pairs.map Prod.snd)).map Prod.fst =
        assign (min 5 (pairs.length / 2)) (pairs.map Prod.fst) :=
      List.map_fst_zip _ _ (by omega)
    have hsnd : ((assign (min 5 (pairs.length / 2)) (pairs.map Prod.fst)).zip
        (pairs.map Prod.snd)).map Prod.snd = pairs.map Prod.snd :=
      List.map_snd_zip _ _ (by omega)
    refine ⟨groupPairs ((assign (min 5 (pairs.length / 2)) (pairs.map Prod.fst)).zip
      (pairs.map Prod.snd)), ?_, ?_, ?_⟩
    · simp only [clusterExperiencesByTheme, if_neg hb, hc, List.length_map]
      rw [if_neg hemb, if_neg (show ¬(min 5 (pairs.length / 2) < 2) by omega), hzip]
    · have hnd := groupPairs_keys_nodup
        ((assign (min 5 (pairs.length / 2)) (pairs.map Prod.fst)).zip (pairs.map Prod.snd))
      have hmm : ∀ j, j ∈ (groupPairs ((assign (min 5 (pairs.length / 2))
          (pairs.map Prod.fst)).zip (pairs.map Prod.snd))).map Prod.fst ↔
          j < min 5 (pairs.length / 2) := by
        intro j
        rw [groupPairs_keys_mem, hfst]
        exact ⟨fun hj => hbound j hj, fun hj => hsurj j hj⟩
      have hkey := keys_length_eq _ (min 5 (pairs.length / 2)) hnd hmm
      calc (groupPairs ((assign (min 5 (pairs.length / 2)) (pairs.map Prod.fst)).zip
              (pairs.map Prod.snd))).length
          = ((groupPairs ((assign (min 5 (pairs.length / 2)) (pairs.map Prod.fst)).zip
              (pairs.map Prod.snd))).map Prod.fst).length := by rw [List.length_map]
        _ = min 5 (pairs.length / 2) := hkey
    · have hperm := groupPairs_flatten
        ((assign (min 5 (pairs.length / 2)) (pairs.map Prod.fst)).zip (pairs.map Prod.snd))
      rw [hsnd] at hperm
      exact hperm

/-- C8: all four similarity/clustering entry points, given an empty
embeddings input, return an empty result (list or mapping) without
raising, for every query, skill, theme, `top_k`, threshold and cluster
assignment (the guard fires before any other computation; a missing
(`None`) input takes the same falsy-guard branch in Python). -/
theorem claim_c8 (enc : Str → Vec) (sim : Vec → Vec → ℚ) (q skill theme : Str)
    (k : Nat) (t : ℚ) (assign : Nat → List Vec → List Nat) (n : Option Nat) :
    findSimilarExperiences enc sim q [] k t = .ok [] ∧
    clusterExperiencesByTheme assign [] n = .ok [] ∧
    matchSkillsToExperiences enc sim skill [] t = .ok [] ∧
    findStoryCandidates enc sim theme [] k = .ok [] :=
  ⟨rfl, rfl, rfl, rfl⟩

/-- C6 (counterexample): a non-empty embeddings input whose single block
carries zero accomplishment embeddings has `N = 0 < 4`, but the result is
the empty mapping — not a single cluster containing everything. -/
theorem claim_c6_counterexample :
    clusterExperiencesByTheme BehavAced.assignNone [BehavAced.emptyEmbBlock] none = .ok [] ∧
    ([] : List (Nat × List ClusterMember)).length ≠ 1 :=
  ⟨rfl, by decide⟩

/-- C6 (witness): four embeddings in one block with the alternating
two-cluster assignment: exactly `min 5 (4 / 2) = 2` clusters, whose
members are a permutation of the four collected accomplishments. -/
theorem claim_c6_witness :
    ∃ cl, clusterExperiencesByTheme BehavAced.assignAlt [BehavAced.fourBlock] none = .ok cl ∧
      cl.length = min 5 (BehavAced.fourPairs.length / 2) ∧
      ((cl.map Prod.snd).flatten).Perm (BehavAced.fourPairs.map Prod.snd) :=
  (claim_c6_amended BehavAced.assignAlt [BehavAced.fourBlock] BehavAced.fourPairs rfl).2
    (by decide) (by decide) (by decide) (by decide)

/-- C5 (witness): one block with one embedding under the constant-one
similarity and threshold 0 returns the single match, which satisfies the
threshold, sortedness and length bounds. -/
theorem claim_c5_witness :
    (∀ r ∈ [BehavAced.oneResult], (0 : ℚ) ≤ r.similarity) ∧
    List.Sorted simDesc [BehavAced.oneResult] ∧ ([BehavAced.oneResult]).length ≤ 3 :=
  claim_c5 BehavAced.encZero BehavAced.simOne (BehavAced.lit "q") [BehavAced.oneBlock] 3 0
    [BehavAced.oneResult] rfl

/-- C10 (witness): the skill-match entry point on the one-embedding block
returns one result, within the hard-coded bound of 5. -/
theorem claim_c10_witness : ([BehavAced.oneResult]).length ≤ 5 :=
  (claim_c10 BehavAced.encZero BehavAced.simOne (BehavAced.lit "s") [BehavAced.oneBlock] 0).2
    [BehavAced.oneResult] rfl

end VectorService

namespace ResumeParser

open BehavAced

/-- C2 (code bug exhibit): `_extract_work_experience` sorts on the raw
end-date string, so on this input (roles ended `Current` and `Sep 2016`,
both with resolvable dates) the dated role is placed first, violating
both the Present/Current-first rule and non-increasing date order. -/
theorem claim_c2_eval :
    (parseOk trivialEmbedder mixedDatesText).work_experience.map (fun ro => ro.end_date) =
      [lit "Sep 2016", lit "Current", []] := by decide

/-- C1 (counterexample): an experience region with text but no
pipe-delimited role-header line parses into one catch-all work-experience
record, not an empty list. -/
theorem claim_c1_counterexample :
    (parseOk trivialEmbedder noPipeText).work_experience.length = 1 ∧ (1 : Nat) ≠ 0 :=
  ⟨by decide, by decide⟩

/-- C1 (witness): the no-pipe resume satisfies the no-header-line
hypothesis, and its parse indeed has at most one work-experience
record. -/
theorem claim_c1_witness :
    (parseOk trivialEmbedder noPipeText).work_experience.length ≤ 1 :=
  claim_c1_amended trivialEmbedder noPipeText (parseOk trivialEmbedder noPipeText)
    (by decide) rfl

/-- C3 (counterexample): Scenario A yields two RoleRecords, not one — the
section-header line `EXPERIENCE` forms a degenerate block of its own. -/
theorem claim_c3_counterexample :
    (parseOk trivialEmbedder scenarioAText).work_experience.length = 2 ∧ (2 : Nat) ≠ 1 :=
  ⟨by decide, by decide⟩

/-- C3 (amended): Scenario A parses successfully into exactly two
RoleRecords: the first has role_title `Senior Engineer`, company
`Acme Corp`, end_date `Present`, exactly one accomplishment with
has_quantifier true, has_tech false, is_personal_contribution true, and
an empty team_context (the team regex requires a number directly after
the keyword, and `team of 5` has `of` in between); the second is a
degenerate record for the header line `EXPERIENCE` with no
accomplishments. -/
theorem claim_c3_amended :
    (parse trivialEmbedder scenarioAText).toOption.isSome = true ∧
    (parseOk trivialEmbedder scenarioAText).work_experience.length = 2 ∧
    ((parseOk trivialEmbedder scenarioAText).work_experience.headD default).role_title =
      lit "Senior Engineer" ∧
    ((parseOk trivialEmbedder scenarioAText).work_experience.headD default).company =
      lit "Acme Corp" ∧
    ((parseOk trivialEmbedder scenarioAText).work_experience.headD default).end_date =
      lit "Present" ∧
    ((parseOk trivialEmbedder scenarioAText).work_experience.headD default).accomplishments =
      [⟨lit "Led team of 5 engineers, increased throughput by 40%", true, false, true⟩] ∧
    ((parseOk trivialEmbedder scenarioAText).work_experience.headD default).team_context =
      none ∧
    ((parseOk trivialEmbedder scenarioAText).work_experience.getD 1 default).role_title =
      lit "EXPERIENCE" ∧
    ((parseOk trivialEmbedder scenarioAText).work_experience.getD 1 default).accomplishments =
      [] := by
  refine ⟨by decide, by decide, by decide, by decide, by decide, by decide, by decide,
    by decide, by decide⟩

/-- C7 (counterexample): the fullwidth-five bullet is matched by the
quantifier regex, so `has_quantifier` is set, yet its text contains no
ASCII digit — the original ASCII-digit invariant fails on the program. -/
theorem claim_c7_counterexample :
    (((parseOk trivialEmbedder unicodeDigitText).work_experience.headD
        default).accomplishments.headD default).has_quantifier = true ∧
    (((parseOk trivialEmbedder unicodeDigitText).work_experience.headD
        default).accomplishments.headD default).text.any Char.isDigit = false :=
  ⟨by decide, by decide⟩

/-- C7 (witness): the quantified bullet of the minimal demo resume indeed
contains a decimal digit. -/
theorem claim_c7_witness :
    (((parseOk trivialEmbedder quantDemoText).work_experience.headD
        default).accomplishments.headD default).text.any isPyDigit = true :=
  claim_c7_amended trivialEmbedder quantDemoText (parseOk trivialEmbedder quantDemoText)
    ((parseOk trivialEmbedder quantDemoText).work_experience.headD default)
    (((parseOk trivialEmbedder quantDemoText).work_experience.headD
        default).accomplishments.headD default)
    rfl (by decide) (by decide) (by decide)

/-- C9 (witness): the duplicated-skill resume parses to a duplicate-free
`skills.all`. -/
theorem claim_c9_witness :
    ((parseOk trivialEmbedder dupSkillsText).skills.all).Nodup :=
  claim_c9 trivialEmbedder dupSkillsText (parseOk trivialEmbedder dupSkillsText) rfl

end ResumeParser
